import Mathlib

/-!
Shallow embedding of the AOL-Core control plane (harmonix-aol-arch) and
verification of spec claims against it.

Components modelled:
* `ServiceRegistry` — `src/infrastructure/aol-core/registry/service_registry.py`
* `EventStore` — `src/infrastructure/aol-core/event_store.py`
* `ShapleyCalculator` — `src/infrastructure/aol-core/event_store.py`
* `CircuitBreakerState` — `src/utils/grpc_client.py`
* `WorkflowGraph` — `src/infrastructure/aol-core/workflow/workflow_graph.py`

Python dicts are modelled as insertion-ordered association lists, sets as
`Finset`, floats as `ℚ`, timestamps as `Nat`.
-/

namespace ServiceRegistry

/-- `ServiceInstance` dataclass from `service_registry.py`.  The manifest is
modelled by the list of its top-level keys (the only thing the registry
inspects); `last_heartbeat` is an abstract timestamp. -/
structure ServiceInstance where
  name : String
  version : String
  host : String
  grpc_port : Nat
  health_port : Nat
  metrics_port : Nat
  manifest : List String
  status : String
  last_heartbeat : Nat
  service_id : String
deriving DecidableEq, Repr

/-- The registry's `self.services : Dict[str, List[ServiceInstance]]`, as an
insertion-ordered association list (Python dicts preserve insertion order). -/
abbrev RegistryState := List (String × List ServiceInstance)

/-- Dictionary lookup: first entry with the given key. -/
def dictGet {β : Type} (d : List (String × β)) (k : String) : Option β :=
  (d.find? (fun p => p.1 == k)).map (fun p => p.2)

/-- Dictionary update in place: rewrite the value of the first entry with the
given key (a Python dict has at most one). -/
def dictUpdate {β : Type} : List (String × β) → String → (β → β) → List (String × β)
  | [], _, _ => []
  | p :: rest, k, f =>
    if p.1 == k then (p.1, f p.2) :: rest else p :: dictUpdate rest k f

/-- `ServiceRegistry._validate_manifest`: all four required fields present. -/
def _validate_manifest (manifest : List String) : Bool :=
  ["kind", "apiVersion", "metadata", "spec"].all (fun f => manifest.contains f)

/-- `ServiceRegistry._has_port_conflict`: some already-registered instance (of
any service, on any host) shares one of the three ports. -/
def _has_port_conflict (services : RegistryState) (inst : ServiceInstance) : Bool :=
  services.any (fun entry => entry.2.any (fun s =>
    s.grpc_port == inst.grpc_port || s.health_port == inst.health_port ||
      s.metrics_port == inst.metrics_port))

/-- First statement of `register_service`: `if service_name not in
self.services: self.services[service_name] = []` (inserts the key at the end,
before any validation is done). -/
def ensure_key (services : RegistryState) (name : String) : RegistryState :=
  if (dictGet services name).isSome then services else services ++ [(name, [])]

/-- `ServiceRegistry.register_service`: ensure the key, check port conflicts,
validate the manifest, then append the instance.  Returns the Python `bool`
together with the new state. -/
def register_service (services : RegistryState) (inst : ServiceInstance) :
    Bool × RegistryState :=
  let services := ensure_key services inst.name
  if _has_port_conflict services inst then (false, services)
  else if !(_validate_manifest inst.manifest) then (false, services)
  else (true, dictUpdate services inst.name (fun l => l ++ [inst]))

/-- `ServiceRegistry.deregister_service`: if the name is a key, drop every
instance of that name whose `service_id` matches. -/
def deregister_service (services : RegistryState) (service_name service_id : String) :
    RegistryState :=
  if (dictGet services service_name).isSome then
    dictUpdate services service_name (fun l =>
      l.filter (fun s => s.service_id != service_id))
  else services

/-- `ServiceRegistry.get_service`: filter the name's instances down to the
`"healthy"` ones and return the first (`healthy_instances[0]`), or `none`. -/
def get_service (services : RegistryState) (service_name : String) :
    Option ServiceInstance :=
  let instances := (dictGet services service_name).getD []
  let healthy_instances := instances.filter (fun s => s.status == "healthy")
  healthy_instances.head?

/-- `ServiceRegistry.list_services`: returns a copy of the map (pure model:
the state itself). -/
def list_services (services : RegistryState) : RegistryState := services

/-- Body of the loop in `update_service_health`: set status and heartbeat of
the first instance with the matching id, then `break`. -/
def updateFirstHealth : List ServiceInstance → String → String → Nat →
    List ServiceInstance
  | [], _, _, _ => []
  | s :: rest, service_id, status, now =>
    if s.service_id == service_id then
      { s with status := status, last_heartbeat := now } :: rest
    else s :: updateFirstHealth rest service_id status now

/-- `ServiceRegistry.update_service_health`. -/
def update_service_health (services : RegistryState)
    (service_name service_id status : String) (now : Nat) : RegistryState :=
  if (dictGet services service_name).isSome then
    dictUpdate services service_name (fun l => updateFirstHealth l service_id status now)
  else services

/-- The three mutating operations of the registry, for reasoning about
operation sequences. -/
inductive RegOp where
  | register (inst : ServiceInstance)
  | deregister (service_name service_id : String)
  | update_health (service_name service_id status : String) (now : Nat)

/-- Apply one operation to the registry state. -/
def applyOp (services : RegistryState) : RegOp → RegistryState
  | .register inst => (register_service services inst).2
  | .deregister n i => deregister_service services n i
  | .update_health n i st now => update_service_health services n i st now

/-- Apply a sequence of operations starting from a state. -/
def applyOps (services : RegistryState) (ops : List RegOp) : RegistryState :=
  ops.foldl applyOp services

/-- The list of instances registered under a name (`[]` when the name is not
a key), i.e. how `self.services` is read everywhere in the source. -/
def lookup_instances (services : RegistryState) (name : String) :
    List ServiceInstance :=
  (dictGet services name).getD []

end ServiceRegistry

namespace EventStore

/-- `EventType` enum from `event_store.py`. -/
inductive EventType where
  | service_registered
  | service_deregistered
  | health_changed
  | route_called
  | service_discovered
  | agent_contribution
  | workflow_started
  | workflow_completed
  | workflow_failed
  | deliberation_started
  | deliberation_restarted
  | agent_lazy_detected
deriving DecidableEq, Repr

/-- `Event` dataclass, restricted to the fields the queries inspect. -/
structure Event where
  event_id : String
  event_type : EventType
  service_name : Option String := none
  source_service : Option String := none
  target_service : Option String := none
  workflow_id : Option String := none
deriving DecidableEq, Repr

/-- Python's `l[-limit:]` for a non-negative `limit`: the whole list when
`limit = 0` (since `-0 == 0`), else the last `limit` elements. -/
def pySliceLast {α : Type} (limit : Nat) (l : List α) : List α :=
  if limit = 0 then l else l.drop (l.length - limit)

/-- Core of `EventStore.add_event`: append, then
`if len(self.events) > self.max_events: self.events = self.events[-self.max_events:]`.
The pub-sub dispatch does not touch `self.events`. -/
def add_event {α : Type} (max_events : Nat) (events : List α) (e : α) : List α :=
  let events := events ++ [e]
  if events.length > max_events then pySliceLast max_events events
  else events

/-- The stored event list after a whole append sequence, starting from the
empty store of `EventStore.__init__`. -/
def run_add_events {α : Type} (max_events : Nat) (l : List α) : List α :=
  l.foldl (add_event max_events) []

/-- Truthiness of a Python `Optional[str]` argument (`None` and `""` are
falsy): the condition `if service_name:` guarding a filter. -/
def strTruthy : Option String → Bool
  | none => false
  | some s => !(s == "")

/-- The filtering part of `EventStore.get_events` (everything before the
final `filtered[-limit:]`). -/
def filterEvents (events : List Event) (event_type : Option EventType)
    (service_name workflow_id : Option String) : List Event :=
  let filtered := events
  let filtered := match event_type with
    | some t => filtered.filter (fun e => e.event_type == t)
    | none => filtered
  let filtered := if strTruthy service_name then
      filtered.filter (fun e => e.service_name == service_name ||
        e.source_service == service_name || e.target_service == service_name)
    else filtered
  let filtered := if strTruthy workflow_id then
      filtered.filter (fun e => e.workflow_id == workflow_id)
    else filtered
  filtered

/-- `EventStore.get_events`: filter, then return `filtered[-limit:]`. -/
def get_events (events : List Event) (event_type : Option EventType)
    (service_name workflow_id : Option String) (limit : Nat) : List Event :=
  pySliceLast limit (filterEvents events event_type service_name workflow_id)

end EventStore

namespace ShapleyCalculator

/-- `ShapleyCalculator.calculate_marginal_contribution` from `event_store.py`.
`all_agents` is the Python list, `value_function` the coalition-value
function on frozensets of agent ids; float arithmetic is modelled over `ℚ`.
The body enumerates all subsets of `set(all_agents) - {agent_id}` and sums
`|S|!·(n-|S|-1)!/n! · (v(S ∪ {agent_id}) - v(S))` with `n = len(all_agents)`
(`workflow_id` is unused by the source). -/
def calculate_marginal_contribution (agent_id : String) (workflow_id : String)
    (all_agents : List String) (value_function : Finset String → ℚ) : ℚ :=
  let _ := workflow_id
  let n := all_agents.length
  if n = 0 then 0
  else
    let other_agents := all_agents.toFinset.erase agent_id
    other_agents.powerset.sum (fun S =>
      ((Nat.factorial S.card * Nat.factorial (n - S.card - 1) : ℚ) /
          (Nat.factorial n : ℚ)) *
        (value_function (insert agent_id S) - value_function S))

end ShapleyCalculator

namespace CircuitBreaker

/-- `CircuitBreakerState` dataclass from `src/utils/grpc_client.py`
(timestamps as `Nat`). -/
structure CircuitBreakerState where
  failures : Nat := 0
  last_failure_time : Option Nat := none
  state : String := "CLOSED"
  threshold : Nat := 5
  timeout : Nat := 60
deriving DecidableEq, Repr

/-- `LoadBalancedGRPCClient._check_circuit_breaker` at time `now`.  Returns
the new state and whether the call raised (circuit still open). -/
def _check_circuit_breaker (cb : CircuitBreakerState) (now : Nat) :
    CircuitBreakerState × Bool :=
  if cb.state == "OPEN" then
    match cb.last_failure_time with
    | some t =>
      if now - t > cb.timeout then ({ cb with state := "HALF_OPEN" }, false)
      else (cb, true)
    | none => ({ cb with state := "CLOSED" }, false)
  else (cb, false)

/-- `LoadBalancedGRPCClient._record_success`. -/
def _record_success (cb : CircuitBreakerState) : CircuitBreakerState :=
  if cb.state == "HALF_OPEN" then { cb with state := "CLOSED", failures := 0 }
  else if cb.state == "CLOSED" then { cb with failures := 0 }
  else cb

/-- `LoadBalancedGRPCClient._record_failure` at time `now`. -/
def _record_failure (cb : CircuitBreakerState) (now : Nat) : CircuitBreakerState :=
  let cb := { cb with failures := cb.failures + 1, last_failure_time := some now }
  if cb.failures ≥ cb.threshold then { cb with state := "OPEN" } else cb

/-- The three events that drive the breaker state. -/
inductive CBEvent where
  | success
  | failure (now : Nat)
  | check (now : Nat)

/-- One step of the breaker (a `check` that raises leaves the state as the
source does). -/
def cbStep (cb : CircuitBreakerState) : CBEvent → CircuitBreakerState
  | .success => _record_success cb
  | .failure now => _record_failure cb now
  | .check now => (_check_circuit_breaker cb now).1

/-- Breaker state after a trace of events, from the default initial state of
`LoadBalancedGRPCClient.__init__` (`CircuitBreakerState()`). -/
def runCB (evs : List CBEvent) : CircuitBreakerState :=
  evs.foldl cbStep {}

end CircuitBreaker

namespace WorkflowGraph

/-- `WorkflowEdge`, restricted to the fields validation inspects (edge ids
are determined by the source/target pair: `f"{source}_to_{target}"`). -/
structure Edge where
  source : String
  target : String
deriving DecidableEq, Repr

/-- A `WorkflowGraph`'s validation-relevant state: the node-id keys of
`self.nodes` and the edges of `self.edges`, in insertion order. -/
structure Graph where
  nodes : List String
  edges : List Edge
deriving DecidableEq, Repr

/-- `self.adjacency.get(node, [])`, resolved through `self.edges`: the edges
out of `node` in insertion order. -/
def adjacency (g : Graph) (node : String) : List Edge :=
  g.edges.filter (fun e => e.source == node)

/-- The targets reachable in one hop from `node` (what the `dfs` loop
iterates over). -/
def dfsTargets (g : Graph) (node : String) : List String :=
  (adjacency g node).map (fun e => e.target)

/-- One iteration of the `for edge_id in self.adjacency.get(node, [])` loop
inside `dfs`: `next` is the recursive call at the remaining fuel; a `true`
found-flag short-circuits the rest of the loop like the source's early
`return True`. -/
def dfsStep (next : String → Finset String → Finset String → Bool × Finset String)
    (stack : Finset String) (acc : Bool × Finset String) (t : String) :
    Bool × Finset String :=
  if acc.1 then acc
  else if t ∉ acc.2 then next t acc.2 stack
  else if t ∈ stack then (true, acc.2)
  else acc

/-- The inner `dfs(node)` of `WorkflowGraph._has_cycle`, in state-passing
style: `vis` is `visited`, `stack` is `rec_stack`, and the `for` loop over
the node's outgoing edges is a fold carrying the (found, visited) pair, with
the found flag short-circuiting the rest of the loop exactly like the
source's early `return True`.  The result pairs the returned boolean with
the updated `visited` (the `rec_stack` addition is undone before returning,
exactly as the source removes `node`).  `fuel` bounds the recursion depth;
it only decreases on nested `dfs` calls, each of which is on a
not-yet-visited node, so `nodes + edges + 1` fuel never runs out — and on
exhaustion the result is `true`, so a `false` result is always the result
the source would compute. -/
def dfs (g : Graph) : Nat → String → Finset String → Finset String →
    Bool × Finset String
  | 0, _, vis, _ => (true, vis)
  | fuel + 1, node, vis, stack =>
    (dfsTargets g node).foldl (dfsStep (dfs g fuel) (insert node stack))
      (false, insert node vis)

/-- One iteration of the `for node in self.nodes` loop of `_has_cycle`. -/
def hasCycleStep (g : Graph) (F : Nat) (acc : Bool × Finset String)
    (n : String) : Bool × Finset String :=
  if acc.1 then acc
  else if n ∈ acc.2 then acc
  else dfs g F n acc.2 ∅

/-- `WorkflowGraph._has_cycle`: run `dfs` from every not-yet-visited node (in
node insertion order) with a shared `visited` set and an empty `rec_stack`,
returning `True` as soon as one call does. -/
def _has_cycle (g : Graph) : Bool :=
  let F := g.nodes.length + g.edges.length + 1
  (g.nodes.foldl (hasCycleStep g F) (false, ∅)).1

/-- `WorkflowGraph.validate`: collect the error messages, in source order. -/
def validate (g : Graph) : List String :=
  (if (adjacency g "__start__").isEmpty then ["Workflow has no entry point"] else [])
    ++ ((g.nodes.filter (fun n => !(n == "__end__") && (adjacency g n).isEmpty)).map
      (fun n => "Node " ++ n ++ " has no outgoing edges"))
    ++ (if _has_cycle g then ["Workflow contains cycles (not a valid DAG)"] else [])
    ++ (g.edges.foldr (fun e acc =>
      (if !(g.nodes.contains e.target) then
        ["Edge " ++ e.source ++ "_to_" ++ e.target ++ " targets non-existent node"]
      else [])
      ++ (if !(g.nodes.contains e.source) then
        ["Edge " ++ e.source ++ "_to_" ++ e.target ++ " originates from non-existent node"]
      else [])
      ++ acc) [])

/-- The one-hop edge relation of the graph. -/
def EdgeRel (g : Graph) (u v : String) : Prop :=
  ∃ e ∈ g.edges, e.source = u ∧ e.target = v

/-- A directed path (zero or more edges). -/
def PathRel (g : Graph) : String → String → Prop :=
  Relation.ReflTransGen (EdgeRel g)

/-- A directed cycle somewhere in the graph: a nonempty path from a node to
itself. -/
def HasCycleProp (g : Graph) : Prop :=
  ∃ u, Relation.TransGen (EdgeRel g) u u

/-- Finish orders: `x :: L` means `x` finished after every node of `L`, and
every edge out of `x` lands in `L`.  The black (finished) nodes of a DFS form
such an order, newest first. -/
inductive FinOrd (g : Graph) : List String → Prop
  | nil : FinOrd g []
  | cons {x : String} {L : List String} (hx : x ∉ L)
      (hsucc : ∀ y, EdgeRel g x y → y ∈ L) (hL : FinOrd g L) : FinOrd g (x :: L)

/-- The contract of a `dfs` call that returns `false`: given that the grey
nodes (`stack`) are visited, the start node is fresh, and the black nodes
`vis \ stack` form a finish order `L`, the black nodes afterwards again form
a finish order, `visited` only grew, and the start node was visited. -/
def dfsSpec (g : Graph) (fuel : Nat) : Prop :=
  ∀ (node : String) (vis stack visE : Finset String) (L : List String),
    stack ⊆ vis → node ∉ vis → L.toFinset = vis \ stack → FinOrd g L →
    dfs g fuel node vis stack = (false, visE) →
    ∃ L', FinOrd g L' ∧ L'.toFinset = visE \ stack ∧ vis ⊆ visE ∧ node ∈ visE

end WorkflowGraph

namespace CircuitBreaker

/-- A trace driving the default breaker to `HALF_OPEN`: five failures at
time 0 (reaching the default threshold 5, so the breaker opens), then a
check at time 100 (elapsed 100 > timeout 60, so it half-opens). -/
def halfOpenTrace : List CBEvent :=
  [.failure 0, .failure 0, .failure 0, .failure 0, .failure 0, .check 100]

end CircuitBreaker

namespace WorkflowGraph

/-- A small valid workflow: `__start__ → a → __end__`. -/
def demoGraph : Graph :=
  { nodes := ["__start__", "__end__", "a"],
    edges := [⟨"__start__", "a"⟩, ⟨"a", "__end__"⟩] }

end WorkflowGraph

namespace ServiceRegistry

/-- A manifest with all four required fields. -/
def validManifestKeys : List String := ["kind", "apiVersion", "metadata", "spec"]

/-- An instance with an empty (invalid) manifest, used against C1. -/
def instNoManifest : ServiceInstance :=
  ⟨"a", "1", "h", 1, 2, 3, [], "starting", 0, "id1"⟩

/-- An instance on host `h1` with ports 1/2/3. -/
def instHost1 : ServiceInstance :=
  ⟨"a", "1", "h1", 1, 2, 3, validManifestKeys, "starting", 0, "i1"⟩

/-- An instance on a different host `h2` with the same ports 1/2/3. -/
def instHost2 : ServiceInstance :=
  ⟨"b", "1", "h2", 1, 2, 3, validManifestKeys, "starting", 0, "i2"⟩

/-- A healthy instance of service `svc`. -/
def instHealthyA : ServiceInstance :=
  ⟨"svc", "1", "hA", 1, 2, 3, validManifestKeys, "healthy", 0, "iA"⟩

/-- A second healthy instance of service `svc`. -/
def instHealthyB : ServiceInstance :=
  ⟨"svc", "1", "hB", 4, 5, 6, validManifestKeys, "healthy", 0, "iB"⟩

/-- Registry state with two healthy instances of `svc`. -/
def rrState : RegistryState := [("svc", [instHealthyA, instHealthyB])]

/-- An instance of service `a` with id `x1`, used for C9. -/
def instX : ServiceInstance :=
  ⟨"a", "1", "h", 1, 2, 3, validManifestKeys, "starting", 0, "x1"⟩

/-- A pre-existing instance of service `a` with the same id `x1` but other
ports, used for C9. -/
def instY : ServiceInstance :=
  ⟨"a", "1", "h", 7, 8, 9, validManifestKeys, "healthy", 0, "x1"⟩

end ServiceRegistry

namespace CircuitBreaker

/-- The reachability invariant of the breaker: the threshold is the default 5
and an open or half-open breaker has accumulated at least `threshold`
failures (neither `_check_circuit_breaker` nor anything else resets the
counter when leaving `OPEN`). -/
def Inv (cb : CircuitBreakerState) : Prop :=
  cb.threshold = 5 ∧
    ((cb.state = "OPEN" ∨ cb.state = "HALF_OPEN") → cb.failures ≥ cb.threshold)

end CircuitBreaker

namespace ShapleyCalculator

/-- The Shapley weighting factor of the source,
`|S|!(n-|S|-1)!/n!`, as a function of `n` and `|S|`. -/
def w (n k : Nat) : ℚ :=
  (Nat.factorial k * Nat.factorial (n - k - 1) : ℚ) / (Nat.factorial n : ℚ)

end ShapleyCalculator

namespace ServiceRegistry

lemma dictGet_cons {β : Type} (p : String × β) (rest : List (String × β)) (k : String) :
    dictGet (p :: rest) k = if p.1 = k then some p.2 else dictGet rest k := by
  by_cases h : p.1 = k <;> simp [dictGet, List.find?_cons, h]

lemma dictGet_ensure_key_self (d : RegistryState) (k : String) :
    dictGet (ensure_key d k) k = some (lookup_instances d k) := by
  unfold ensure_key lookup_instances
  cases h : dictGet d k with
  | some v => simp [h]
  | none =>
    have hf : d.find? (fun p => p.1 == k) = none := by
      unfold dictGet at h
      cases hf : d.find? (fun p => p.1 == k) with
      | none => rfl
      | some p => rw [hf] at h; cases h
    simp [h, dictGet, List.find?_append, hf]

lemma dictGet_ensure_key_ne (d : RegistryState) (k n : String) (h : k ≠ n) :
    dictGet (ensure_key d n) k = dictGet d k := by
  unfold ensure_key
  cases hd : (dictGet d n).isSome with
  | true => simp
  | false =>
    simp only [hd, Bool.false_eq_true, if_false]
    unfold dictGet
    rw [List.find?_append]
    cases hf : d.find? (fun p => p.1 == k) with
    | some p => simp [hf]
    | none => simp [hf, List.find?_cons, Ne.symm h]

lemma lookup_ensure_key (d : RegistryState) (n k : String) :
    lookup_instances (ensure_key d n) k = lookup_instances d k := by
  by_cases h : k = n
  · subst h; rw [lookup_instances, dictGet_ensure_key_self]; rfl
  · rw [lookup_instances, dictGet_ensure_key_ne d k n h]; rfl

lemma dictGet_dictUpdate_self {β : Type} (d : List (String × β)) (k : String)
    (f : β → β) : dictGet (dictUpdate d k f) k = (dictGet d k).map f := by
  induction d with
  | nil => rfl
  | cons p rest ih =>
    by_cases h : p.1 = k
    · simp [dictUpdate, h, dictGet_cons]
    · simp [dictUpdate, h, dictGet_cons, ih]

lemma dictGet_dictUpdate_ne {β : Type} (d : List (String × β)) (k n : String)
    (f : β → β) (h : k ≠ n) : dictGet (dictUpdate d n f) k = dictGet d k := by
  induction d with
  | nil => rfl
  | cons p rest ih =>
    by_cases hp : p.1 = n
    · have : p.1 ≠ k := by rw [hp]; exact Ne.symm h
      simp [dictUpdate, hp, dictGet_cons, this, Ne.symm h]
    · simp only [dictUpdate, hp]
      simp only [beq_iff_eq, hp, if_false]
      rw [dictGet_cons, dictGet_cons, ih]

lemma hasPortConflict_ensure_key (d : RegistryState) (n : String)
    (inst : ServiceInstance) :
    _has_port_conflict (ensure_key d n) inst = _has_port_conflict d inst := by
  unfold ensure_key
  cases hd : (dictGet d n).isSome with
  | true => simp
  | false => simp [_has_port_conflict, List.any_append]

/-- C1/C4/C9 share this: how `register_service` unfolds on success. -/
lemma register_service_true (st : RegistryState) (inst : ServiceInstance)
    (h : (register_service st inst).1 = true) :
    (register_service st inst).2 =
      dictUpdate (ensure_key st inst.name) inst.name (fun l => l ++ [inst]) := by
  unfold register_service at *
  by_cases hc : _has_port_conflict (ensure_key st inst.name) inst
  · simp [hc] at h
  · by_cases hm : _validate_manifest inst.manifest
    · simp [hc, hm]
    · simp [hc, hm] at h

lemma register_service_false (st : RegistryState) (inst : ServiceInstance)
    (h : (register_service st inst).1 = false) :
    (register_service st inst).2 = ensure_key st inst.name := by
  unfold register_service at *
  by_cases hc : _has_port_conflict (ensure_key st inst.name) inst
  · simp [hc]
  · by_cases hm : _validate_manifest inst.manifest
    · simp [hc, hm] at h
    · simp [hc, hm]

end ServiceRegistry

namespace ServiceRegistry

lemma register_service_fst (st : RegistryState) (inst : ServiceInstance) :
    (register_service st inst).1 =
      (!(_has_port_conflict st inst) && _validate_manifest inst.manifest) := by
  have hek := hasPortConflict_ensure_key st inst.name inst
  by_cases hc : _has_port_conflict st inst
  · have hc' : _has_port_conflict (ensure_key st inst.name) inst = true := by
      rw [hek]; exact hc
    simp [register_service, hc', hc]
  · have hc' : _has_port_conflict (ensure_key st inst.name) inst = false := by
      rw [hek]; simpa using hc
    by_cases hm : _validate_manifest inst.manifest
    · simp [register_service, hc', hm, Bool.not_eq_true] at *
      simp [hc, hm]
    · simp [register_service, hc', Bool.not_eq_true] at *
      simp [hc, hm]

lemma hasPortConflict_iff (st : RegistryState) (inst : ServiceInstance) :
    _has_port_conflict st inst = true ↔
      ∃ entry ∈ st, ∃ s ∈ entry.2,
        (s.grpc_port = inst.grpc_port ∨ s.health_port = inst.health_port ∨
          s.metrics_port = inst.metrics_port) := by
  unfold _has_port_conflict
  simp only [List.any_eq_true, Bool.or_eq_true, beq_iff_eq, or_assoc]

lemma get_service_eq (st : RegistryState) (name : String) :
    get_service st name =
      ((lookup_instances st name).filter (fun s => s.status == "healthy")).head? := rfl

lemma get_service_some (st : RegistryState) (name : String) (s : ServiceInstance)
    (h : get_service st name = some s) :
    s ∈ lookup_instances st name ∧ s.status = "healthy" := by
  rw [get_service_eq] at h
  have hmem : s ∈ (lookup_instances st name).filter (fun s => s.status == "healthy") := by
    cases hl : (lookup_instances st name).filter (fun s => s.status == "healthy") with
    | nil => rw [hl] at h; cases h
    | cons a t =>
      rw [hl] at h
      injection h with hh
      simp [hh]
  refine ⟨List.mem_of_mem_filter hmem, ?_⟩
  have := List.of_mem_filter hmem
  simpa using this

lemma get_service_none_iff (st : RegistryState) (name : String) :
    get_service st name = none ↔
      ∀ s ∈ lookup_instances st name, s.status ≠ "healthy" := by
  rw [get_service_eq, List.head?_eq_none_iff, List.filter_eq_nil_iff]
  constructor
  · intro h s hs
    have := h s hs
    simpa using this
  · intro h s hs
    simpa using h s hs

/-- C7: after any sequence of register / deregister / update-health
operations starting from the empty registry, `get_service` returns only an
instance whose current status is `"healthy"`, and returns `none` exactly
when the service has no instance with status `"healthy"`. -/
theorem c7_get_healthy_sound (ops : List RegOp) (name : String) :
    (∀ s, get_service (applyOps [] ops) name = some s →
      s ∈ lookup_instances (applyOps [] ops) name ∧ s.status = "healthy") ∧
    (get_service (applyOps [] ops) name = none ↔
      ∀ s ∈ lookup_instances (applyOps [] ops) name, s.status ≠ "healthy") :=
  ⟨fun s h => get_service_some _ _ s h, get_service_none_iff _ _⟩

/-- C7 witness: after registering a healthy instance of `svc`, `get_service`
returns it and its status is indeed `"healthy"`. -/
theorem c7_witness :
    get_service (applyOps [] [.register instHealthyA]) "svc" = some instHealthyA ∧
    instHealthyA ∈ lookup_instances (applyOps [] [.register instHealthyA]) "svc" ∧
    instHealthyA.status = "healthy" := by
  refine ⟨by decide, (c7_get_healthy_sound [.register instHealthyA] "svc").1
    instHealthyA (by decide)⟩

/-- C8 (code bug): with two healthy instances of `svc` registered,
`get_service` — whose comment claims "Simple round-robin" and whose spec
promises a per-service cursor — returns `healthy_instances[0]` and mutates
nothing, so every call returns the first healthy instance `instHealthyA` and
never cycles to `instHealthyB`. -/
theorem c8_no_round_robin :
    get_service rrState "svc" = some instHealthyA ∧
    get_service rrState "svc" ≠ some instHealthyB ∧
    instHealthyA ≠ instHealthyB := by
  refine ⟨by decide, by decide, by decide⟩

/-- C1 counterexample: registering an instance with an invalid manifest into
the empty registry fails, yet `list_services` afterwards has the key `"a"`
(mapped to `[]`) that it did not have before, so the returned map changed. -/
theorem c1_counterexample :
    (register_service [] instNoManifest).1 = false ∧
    dictGet (list_services (register_service [] instNoManifest).2) "a" = some [] ∧
    dictGet (list_services ([] : RegistryState)) "a" = none := by
  refine ⟨by decide, by decide, rfl⟩

/-- C1 amended: a failed `register_service` (port conflict or invalid
manifest) leaves the list of instances of every service name unchanged
(reading an absent name as the empty list); the only possible change to the
map is that the rejected instance's name may newly appear as a key mapped to
the empty list. -/
theorem c1_failed_register_preserves_instances (st : RegistryState)
    (inst : ServiceInstance) (h : (register_service st inst).1 = false)
    (k : String) :
    lookup_instances (list_services (register_service st inst).2) k =
      lookup_instances (list_services st) k := by
  rw [list_services, list_services, register_service_false st inst h,
    lookup_ensure_key]

/-- C1 witness: the amended statement at the concrete failing registration. -/
theorem c1_witness :
    lookup_instances (list_services (register_service [] instNoManifest).2) "a" =
      lookup_instances (list_services ([] : RegistryState)) "a" :=
  c1_failed_register_preserves_instances [] instNoManifest (by decide) "a"

/-- C4 counterexample: an instance on host `h2` whose three ports equal those
of an already-registered instance on the different host `h1` is rejected
(with a valid manifest), although the claim says it must succeed. -/
theorem c4_counterexample :
    (register_service [] instHost1).1 = true ∧
    instHost2.host ≠ instHost1.host ∧
    _validate_manifest instHost2.manifest = true ∧
    (register_service (register_service [] instHost1).2 instHost2).1 = false := by
  refine ⟨by decide, by decide, by decide, by decide⟩

/-- C4 amended: for a valid manifest, `register_service` fails (and it fails
through the port-conflict branch, the only remaining one) if and only if some
already-registered instance — of any service and on any host — has an equal
`grpc_port`, `health_port`, or `metrics_port`. -/
theorem c4_port_conflict_ignores_host (st : RegistryState)
    (inst : ServiceInstance) (hm : _validate_manifest inst.manifest = true) :
    (register_service st inst).1 = false ↔
      ∃ entry ∈ st, ∃ s ∈ entry.2,
        (s.grpc_port = inst.grpc_port ∨ s.health_port = inst.health_port ∨
          s.metrics_port = inst.metrics_port) := by
  rw [register_service_fst, ← hasPortConflict_iff st inst]
  simp [hm]

/-- C4 witness: the amended statement applied at a concrete conflicting
registration across different hosts. -/
theorem c4_witness :
    (register_service [("a", [instHost1])] instHost2).1 = false :=
  (c4_port_conflict_ignores_host [("a", [instHost1])] instHost2 (by decide)).mpr
    ⟨("a", [instHost1]), by decide, instHost1, by decide, Or.inl (by decide)⟩

end ServiceRegistry

namespace ServiceRegistry

/-- C9 counterexample: (a) registering `instX` (service `a`, fresh name) into
the empty registry and deregistering it leaves the key `"a"` mapped to `[]`,
so the key set of `list_services` is not restored; (b) when a pre-existing
instance `instY` of the same service shares `instX`'s `service_id`,
deregistering removes both, so even the instance lists are not restored. -/
theorem c9_counterexample :
    ((register_service [] instX).1 = true ∧
      dictGet (list_services (deregister_service (register_service [] instX).2
        instX.name instX.service_id)) "a" = some [] ∧
      dictGet (list_services ([] : RegistryState)) "a" = none) ∧
    ((register_service [("a", [instY])] instX).1 = true ∧
      lookup_instances (list_services (deregister_service
        (register_service [("a", [instY])] instX).2 instX.name instX.service_id)) "a" = [] ∧
      lookup_instances (list_services [("a", [instY])]) "a" = [instY]) := by
  refine ⟨⟨by decide, by decide, rfl⟩, by decide, by decide, by decide⟩

/-- C9 amended: if `x` registers successfully and no already-registered
instance under `x.name` shares `x.service_id`, then
`register(x); deregister(x.name, x.service_id)` restores the list of
instances of every service name (reading an absent name as the empty list);
the key `x.name` itself may newly appear, mapped to the empty list. -/
theorem c9_register_deregister_roundtrip (st : RegistryState)
    (x : ServiceInstance) (hreg : (register_service st x).1 = true)
    (hid : ∀ y ∈ lookup_instances st x.name, y.service_id ≠ x.service_id)
    (k : String) :
    lookup_instances (list_services (deregister_service
        (register_service st x).2 x.name x.service_id)) k =
      lookup_instances (list_services st) k := by
  rw [list_services, list_services, register_service_true st x hreg]
  have hmid : dictGet (dictUpdate (ensure_key st x.name) x.name
      (fun l => l ++ [x])) x.name = some (lookup_instances st x.name ++ [x]) := by
    rw [dictGet_dictUpdate_self, dictGet_ensure_key_self]
    rfl
  rw [deregister_service]
  rw [hmid]
  simp only [Option.isSome_some, if_true]
  by_cases hk : k = x.name
  · subst hk
    rw [lookup_instances, dictGet_dictUpdate_self, hmid]
    simp only [Option.map_some', Option.getD_some]
    rw [List.filter_append]
    have h1 : (lookup_instances st x.name).filter
        (fun s => s.service_id != x.service_id) = lookup_instances st x.name :=
      List.filter_eq_self.mpr (fun y hy => bne_iff_ne.mpr (hid y hy))
    have h2 : [x].filter (fun s => s.service_id != x.service_id) = [] := by
      simp [List.filter]
    rw [h1, h2, List.append_nil]
  · rw [lookup_instances, dictGet_dictUpdate_ne _ _ _ _ hk,
      dictGet_dictUpdate_ne _ _ _ _ hk, dictGet_ensure_key_ne _ _ _ hk]
    rfl

/-- C9 witness: the amended statement at a concrete registration into the
empty registry. -/
theorem c9_witness :
    lookup_instances (list_services (deregister_service
        (register_service [] instX).2 instX.name instX.service_id)) "a" =
      lookup_instances (list_services ([] : RegistryState)) "a" :=
  c9_register_deregister_roundtrip [] instX (by decide)
    (by intro y hy; simp [lookup_instances, dictGet] at hy) "a"

end ServiceRegistry

namespace EventStore

lemma add_event_eq {α : Type} (N : Nat) (hN : 0 < N) (s : List α) (e : α) :
    add_event N s e = (s ++ [e]).drop ((s ++ [e]).length - N) := by
  have h1 : add_event N s e =
      if (s ++ [e]).length > N then pySliceLast N (s ++ [e]) else (s ++ [e]) := rfl
  rw [h1, pySliceLast]
  by_cases h : (s ++ [e]).length > N
  · rw [if_pos h, if_neg (by omega)]
  · rw [if_neg h]
    have h0 : (s ++ [e]).length - N = 0 := by omega
    rw [h0, List.drop_zero]

lemma foldl_add_event {α : Type} (N : Nat) (hN : 0 < N) :
    ∀ (l s : List α), s.length ≤ N →
      l.foldl (add_event N) s = (s ++ l).drop ((s ++ l).length - N) := by
  intro l
  induction l with
  | nil =>
    intro s hs
    rw [List.foldl_nil, List.append_nil]
    have h0 : s.length - N = 0 := by omega
    rw [h0, List.drop_zero]
  | cons e l ih =>
    intro s hs
    rw [List.foldl_cons, add_event_eq N hN]
    have hk : (s ++ [e]).length - N ≤ (s ++ [e]).length := Nat.sub_le _ _
    have hlen : ((s ++ [e]).drop ((s ++ [e]).length - N)).length ≤ N := by
      rw [List.length_drop]
      omega
    rw [ih _ hlen]
    have hsplit : ((s ++ [e]).drop ((s ++ [e]).length - N)) ++ l =
        ((s ++ [e]) ++ l).drop ((s ++ [e]).length - N) :=
      (List.drop_append_of_le_length hk).symm
    rw [hsplit, List.drop_drop]
    have hl1 : (s ++ [e]) ++ l = s ++ e :: l := by simp
    rw [hl1]
    congr 1
    simp [List.length_drop]
    omega

/-- C2: appending a sequence of `L` events to the default store
(`max_events = 1000`) leaves `min L 1000` stored events, and they are
exactly the last `min L 1000` appended events, in append order. -/
theorem c2_bounded_event_ring (l : List Event) :
    (run_add_events 1000 l).length = min l.length 1000 ∧
    run_add_events 1000 l = l.drop (l.length - 1000) := by
  have h := foldl_add_event 1000 (by omega) l [] (by simp)
  rw [List.nil_append] at h
  rw [run_add_events, h]
  constructor
  · rw [List.length_drop]
    omega
  · rfl

/-- C10: `get_events` with `limit = 0` returns every matching event (Python's
`filtered[-0:]` is the whole filtered list), so zero events cannot be
requested; with `limit > 0` it returns at most `limit` events. -/
theorem c10_get_events_zero_limit (events : List Event)
    (event_type : Option EventType) (service_name workflow_id : Option String)
    (limit : Nat) :
    get_events events event_type service_name workflow_id 0 =
      filterEvents events event_type service_name workflow_id ∧
    (0 < limit →
      (get_events events event_type service_name workflow_id limit).length ≤ limit) := by
  constructor
  · rw [get_events, pySliceLast, if_pos rfl]
  · intro hpos
    rw [get_events, pySliceLast, if_neg (by omega), List.length_drop]
    omega

/-- C10 witness: with two stored events and `limit = 1`, at most one event is
returned. -/
theorem c10_witness :
    (0 : Nat) < 1 ∧
    (get_events [⟨"e1", .route_called, none, none, none, none⟩,
      ⟨"e2", .route_called, none, none, none, none⟩] none none none 1).length ≤ 1 :=
  ⟨by omega, (c10_get_events_zero_limit _ none none none 1).2 (by omega)⟩

end EventStore

namespace CircuitBreaker

lemma cbStep_inv (cb : CircuitBreakerState) (ev : CBEvent) (h : Inv cb) :
    Inv (cbStep cb ev) := by
  obtain ⟨hthr, hfail⟩ := h
  cases ev with
  | success =>
    by_cases h1 : cb.state = "HALF_OPEN"
    · simp [cbStep, _record_success, h1, Inv, hthr]
    · by_cases h2 : cb.state = "CLOSED"
      · simp [cbStep, _record_success, h1, h2, Inv, hthr]
      · simpa [cbStep, _record_success, h1, h2, Inv, hthr] using hfail
  | failure now =>
    refine ⟨?_, ?_⟩
    · simp only [cbStep, _record_failure]
      split <;> simpa using hthr
    · intro hst
      simp only [cbStep, _record_failure] at hst ⊢
      by_cases h1 : cb.failures + 1 ≥ cb.threshold
      · simp [h1]
      · simp [h1] at hst ⊢
        have := hfail hst
        omega
  | check now =>
    by_cases h1 : cb.state = "OPEN"
    · cases hlf : cb.last_failure_time with
      | some t =>
        by_cases h2 : now - t > cb.timeout
        · refine ⟨by simp [cbStep, _check_circuit_breaker, h1, hlf, h2, hthr], ?_⟩
          intro _
          have := hfail (Or.inl h1)
          simpa [cbStep, _check_circuit_breaker, h1, hlf, h2, hthr] using this
        · simpa [cbStep, _check_circuit_breaker, h1, hlf, h2, Inv, hthr] using hfail
      | none =>
        simp [cbStep, _check_circuit_breaker, h1, hlf, Inv, hthr]
    · simpa [cbStep, _check_circuit_breaker, h1, Inv, hthr] using hfail

lemma runCB_inv (evs : List CBEvent) : Inv (runCB evs) := by
  rw [runCB]
  have hinit : Inv ({} : CircuitBreakerState) := by
    refine ⟨rfl, ?_⟩
    intro h
    rcases h with h | h <;> exact absurd h (by decide)
  revert hinit
  generalize ({} : CircuitBreakerState) = cb
  intro hinit
  induction evs generalizing cb with
  | nil => exact hinit
  | cons ev evs ih => exact ih _ (cbStep_inv cb ev hinit)

/-- C5 counterexample: a reachable `HALF_OPEN` breaker (five failures, then a
check after the timeout) transitions to `CLOSED` after a single successful
call — not after `success_threshold = 3` consecutive successes; no success
threshold exists in the code. -/
theorem c5_counterexample :
    (runCB halfOpenTrace).state = "HALF_OPEN" ∧
    (cbStep (runCB halfOpenTrace) .success).state = "CLOSED" := by
  constructor <;> rfl

/-- C5 amended: in every reachable `HALF_OPEN` state, the next single success
transitions the breaker to `CLOSED`, and any failure transitions it to
`OPEN` (the latter because an open/half-open breaker always carries at least
`threshold` failures). -/
theorem c5_half_open_behaviour (evs : List CBEvent)
    (h : (runCB evs).state = "HALF_OPEN") :
    (cbStep (runCB evs) .success).state = "CLOSED" ∧
    ∀ now, (cbStep (runCB evs) (.failure now)).state = "OPEN" := by
  obtain ⟨hthr, hfail⟩ := runCB_inv evs
  constructor
  · simp [cbStep, _record_success, h]
  · intro now
    have hge : (runCB evs).failures ≥ (runCB evs).threshold := hfail (Or.inr h)
    have hge1 : (runCB evs).failures + 1 ≥ (runCB evs).threshold := by omega
    simp [cbStep, _record_failure, hge1]

/-- C5 witness: the amended statement at the concrete half-opening trace. -/
theorem c5_witness :
    (cbStep (runCB halfOpenTrace) .success).state = "CLOSED" ∧
    (cbStep (runCB halfOpenTrace) (.failure 200)).state = "OPEN" :=
  ⟨(c5_half_open_behaviour halfOpenTrace (by decide)).1,
    (c5_half_open_behaviour halfOpenTrace (by decide)).2 200⟩

end CircuitBreaker

namespace ShapleyCalculator

lemma calc_eq (i wf : String) (l : List String) (v : Finset String → ℚ) :
    calculate_marginal_contribution i wf l v =
      if l.length = 0 then 0
      else ((l.toFinset.erase i).powerset).sum (fun S =>
        w l.length S.card * (v (insert i S) - v S)) := rfl

lemma powerset_erase (A : Finset String) (i : String) :
    (A.erase i).powerset = A.powerset.filter (fun S => i ∉ S) := by
  ext S
  simp [Finset.mem_powerset, Finset.subset_erase, Finset.mem_filter]

lemma partA_inner (A : Finset String) (i : String) (hi : i ∈ A)
    (v : Finset String → ℚ) :
    (A.erase i).powerset.sum (fun S => w A.card S.card * v (insert i S)) =
      A.powerset.sum (fun T => if i ∈ T then w A.card (T.card - 1) * v T else 0) := by
  rw [← Finset.sum_filter]
  refine Finset.sum_nbij' (fun S => insert i S) (fun T => T.erase i) ?_ ?_ ?_ ?_ ?_
  · intro S hS
    rw [Finset.mem_powerset] at hS
    rw [Finset.mem_filter, Finset.mem_powerset]
    exact ⟨Finset.insert_subset hi (hS.trans (Finset.erase_subset i A)),
      Finset.mem_insert_self i S⟩
  · intro T hT
    rw [Finset.mem_filter, Finset.mem_powerset] at hT
    rw [Finset.mem_powerset]
    exact Finset.erase_subset_erase i hT.1
  · intro S hS
    rw [Finset.mem_powerset, Finset.subset_erase] at hS
    exact Finset.erase_insert hS.2
  · intro T hT
    rw [Finset.mem_filter] at hT
    exact Finset.insert_erase hT.2
  · intro S hS
    rw [Finset.mem_powerset, Finset.subset_erase] at hS
    rw [Finset.card_insert_of_not_mem hS.2]
    simp

lemma partA (A : Finset String) (v : Finset String → ℚ) :
    A.sum (fun i =>
        (A.erase i).powerset.sum (fun S => w A.card S.card * v (insert i S))) =
      A.powerset.sum (fun T => (T.card : ℚ) * (w A.card (T.card - 1) * v T)) := by
  rw [Finset.sum_congr rfl (fun i hi => partA_inner A i hi v), Finset.sum_comm]
  refine Finset.sum_congr rfl (fun T hT => ?_)
  rw [Finset.sum_ite_mem, Finset.inter_eq_right.mpr (Finset.mem_powerset.mp hT),
    Finset.sum_const, nsmul_eq_mul]

lemma partB (A : Finset String) (v : Finset String → ℚ) :
    A.sum (fun i => (A.erase i).powerset.sum (fun S => w A.card S.card * v S)) =
      A.powerset.sum (fun S =>
        ((A.card - S.card : ℕ) : ℚ) * (w A.card S.card * v S)) := by
  rw [Finset.sum_congr rfl (fun i _ => by
    rw [powerset_erase A i, Finset.sum_filter]), Finset.sum_comm]
  refine Finset.sum_congr rfl (fun S hS => ?_)
  rw [← Finset.sum_filter, ← Finset.sdiff_eq_filter, Finset.sum_const,
    nsmul_eq_mul, Finset.card_sdiff (Finset.mem_powerset.mp hS)]

lemma coeff_eval (n k : ℕ) (hn : 1 ≤ n) (hk : k ≤ n) :
    (k : ℚ) * w n (k - 1) - ((n - k : ℕ) : ℚ) * w n k =
      if k = n then 1 else if k = 0 then -1 else 0 := by
  by_cases hkn : k = n
  · subst hkn
    rw [if_pos rfl]
    obtain ⟨m, rfl⟩ : ∃ m, k = m + 1 := ⟨k - 1, by omega⟩
    unfold w
    have e1 : m + 1 - 1 = m := by omega
    have e2 : m + 1 - m - 1 = 0 := by omega
    have e3 : m + 1 - (m + 1) = 0 := by omega
    rw [e1, e2, e3]
    have hm : (Nat.factorial m : ℚ) ≠ 0 := by exact_mod_cast Nat.factorial_ne_zero m
    rw [Nat.factorial_succ]
    push_cast
    field_simp
  · rw [if_neg hkn]
    by_cases hk0 : k = 0
    · subst hk0
      rw [if_pos rfl]
      obtain ⟨m, rfl⟩ : ∃ m, n = m + 1 := ⟨n - 1, by omega⟩
      unfold w
      have e1 : m + 1 - 0 - 1 = m := by omega
      have e2 : m + 1 - 0 = m + 1 := by omega
      rw [e1, e2]
      have hm : (Nat.factorial m : ℚ) ≠ 0 := by exact_mod_cast Nat.factorial_ne_zero m
      rw [Nat.factorial_succ]
      push_cast
      field_simp
    · rw [if_neg hk0]
      obtain ⟨a, rfl⟩ : ∃ a, k = a + 1 := ⟨k - 1, by omega⟩
      obtain ⟨b, rfl⟩ : ∃ b, n = a + b + 2 := ⟨n - a - 2, by omega⟩
      unfold w
      have e1 : a + 1 - 1 = a := by omega
      have e2 : a + b + 2 - a - 1 = b + 1 := by omega
      have e3 : a + b + 2 - (a + 1) - 1 = b := by omega
      have e4 : a + b + 2 - (a + 1) = b + 1 := by omega
      rw [e1, e2, e3, e4]
      have ha : (Nat.factorial a : ℚ) ≠ 0 := by exact_mod_cast Nat.factorial_ne_zero a
      have hb : (Nat.factorial b : ℚ) ≠ 0 := by exact_mod_cast Nat.factorial_ne_zero b
      have hab : (Nat.factorial (a + b + 2) : ℚ) ≠ 0 := by
        exact_mod_cast Nat.factorial_ne_zero (a + b + 2)
      rw [Nat.factorial_succ a, Nat.factorial_succ b]
      push_cast
      field_simp
      ring

lemma sum_phi (A : Finset String) (hA : A.Nonempty) (v : Finset String → ℚ) :
    A.sum (fun i => (A.erase i).powerset.sum (fun S =>
      w A.card S.card * (v (insert i S) - v S))) = v A - v ∅ := by
  have hn : 1 ≤ A.card := Finset.card_pos.mpr hA
  have hsplit : ∀ i ∈ A,
      (A.erase i).powerset.sum (fun S => w A.card S.card * (v (insert i S) - v S)) =
        (A.erase i).powerset.sum (fun S => w A.card S.card * v (insert i S)) -
          (A.erase i).powerset.sum (fun S => w A.card S.card * v S) := by
    intro i _
    rw [← Finset.sum_sub_distrib]
    exact Finset.sum_congr rfl (fun S _ => by ring)
  rw [Finset.sum_congr rfl hsplit, Finset.sum_sub_distrib, partA A v, partB A v,
    ← Finset.sum_sub_distrib]
  have hcoeff : ∀ T ∈ A.powerset,
      (T.card : ℚ) * (w A.card (T.card - 1) * v T) -
          ((A.card - T.card : ℕ) : ℚ) * (w A.card T.card * v T) =
        (if T = A then v T else 0) + (if T = ∅ then -(v T) else 0) := by
    intro T hT
    have hsub : T ⊆ A := Finset.mem_powerset.mp hT
    have hk : T.card ≤ A.card := Finset.card_le_card hsub
    have hfactor : (T.card : ℚ) * (w A.card (T.card - 1) * v T) -
        ((A.card - T.card : ℕ) : ℚ) * (w A.card T.card * v T) =
        ((T.card : ℚ) * w A.card (T.card - 1) -
          ((A.card - T.card : ℕ) : ℚ) * w A.card T.card) * v T := by ring
    rw [hfactor, coeff_eval A.card T.card hn hk]
    by_cases h1 : T.card = A.card
    · have hTA : T = A := Finset.eq_of_subset_of_card_le hsub (le_of_eq h1.symm)
      have hTne : T ≠ ∅ := by
        rw [hTA]
        exact Finset.nonempty_iff_ne_empty.mp hA
      rw [if_pos h1, if_pos hTA, if_neg hTne]
      ring
    · have hTA : T ≠ A := fun h => h1 (by rw [h])
      rw [if_neg h1, if_neg hTA]
      by_cases h0 : T.card = 0
      · have hT0 : T = ∅ := Finset.card_eq_zero.mp h0
        rw [if_pos h0, if_pos hT0]
        ring
      · have hT0 : T ≠ ∅ := fun h => h0 (by rw [h]; rfl)
        rw [if_neg h0, if_neg hT0]
        ring
  rw [Finset.sum_congr rfl hcoeff, Finset.sum_add_distrib,
    Finset.sum_ite_eq' A.powerset A v,
    Finset.sum_ite_eq' A.powerset ∅ (fun T => -(v T)),
    if_pos (Finset.mem_powerset_self A), if_pos (Finset.empty_mem_powerset A)]
  ring

/-- C3: for every duplicate-free agent list of length at most 6 and every
coalition-value function `v`, the agents' marginal contributions (as computed
by `calculate_marginal_contribution`) sum to `v(A) - v(∅)` within 1e-9 — in
the `ℚ` model the sum is exact, so the tolerance is trivially met.  (The
identity holds for every agent count; the bound 6 is the claim's.) -/
theorem c3_shapley_efficiency (wf : String) (l : List String) (hnd : l.Nodup)
    (hlen : l.length ≤ 6) (v : Finset String → ℚ) :
    |(l.map (fun i => calculate_marginal_contribution i wf l v)).sum -
        (v l.toFinset - v ∅)| ≤ 1 / 1000000000 := by
  cases l with
  | nil => simp
  | cons x t =>
    have hne : (x :: t).length ≠ 0 := by simp
    have hA : (x :: t).toFinset.Nonempty := ⟨x, by simp⟩
    have hcard : (x :: t).toFinset.card = (x :: t).length :=
      List.toFinset_card_of_nodup hnd
    have hmap : ((x :: t).map
          (fun i => calculate_marginal_contribution i wf (x :: t) v)).sum =
        (x :: t).toFinset.sum
          (fun i => calculate_marginal_contribution i wf (x :: t) v) :=
      (List.sum_toFinset _ hnd).symm
    have hval : ∀ i, calculate_marginal_contribution i wf (x :: t) v =
        ((x :: t).toFinset.erase i).powerset.sum (fun S =>
          w (x :: t).toFinset.card S.card * (v (insert i S) - v S)) := by
      intro i
      rw [calc_eq, if_neg hne, hcard]
    rw [hmap, Finset.sum_congr rfl (fun i _ => hval i),
      sum_phi (x :: t).toFinset hA v]
    simp

/-- C3 witness: the efficiency identity for two agents and `v(S) = |S|`. -/
theorem c3_witness :
    (["a", "b"] : List String).Nodup ∧ (["a", "b"] : List String).length ≤ 6 ∧
    |((["a", "b"] : List String).map (fun i =>
        calculate_marginal_contribution i "wf" ["a", "b"]
          (fun S => (S.card : ℚ)))).sum -
      ((fun (S : Finset String) => (S.card : ℚ)) (["a", "b"] : List String).toFinset -
        (fun (S : Finset String) => (S.card : ℚ)) ∅)| ≤ 1 / 1000000000 :=
  ⟨by decide, by decide,
    c3_shapley_efficiency "wf" ["a", "b"] (by decide) (by decide)
      (fun S => (S.card : ℚ))⟩

end ShapleyCalculator

namespace WorkflowGraph

lemma mem_dfsTargets (g : Graph) (u y : String) :
    y ∈ dfsTargets g u ↔ EdgeRel g u y := by
  simp only [dfsTargets, adjacency, List.mem_map, List.mem_filter, EdgeRel,
    beq_iff_eq]
  constructor
  · rintro ⟨e, ⟨he, hs⟩, ht⟩
    exact ⟨e, he, hs, ht⟩
  · rintro ⟨e, he, hs, ht⟩
    exact ⟨e, ⟨he, hs⟩, ht⟩

lemma finOrd_closed (g : Graph) {L : List String} (h : FinOrd g L) :
    ∀ x ∈ L, ∀ y, EdgeRel g x y → y ∈ L := by
  induction h with
  | nil => intro x hx; cases hx
  | cons hx hsucc hL ih =>
    intro x hxmem y hxy
    rcases List.mem_cons.mp hxmem with rfl | hxL
    · exact List.mem_cons_of_mem _ (hsucc y hxy)
    · exact List.mem_cons_of_mem _ (ih x hxL y hxy)

lemma finOrd_reach_mem (g : Graph) {L : List String} (h : FinOrd g L)
    {a b : String} (ha : a ∈ L) (hab : Relation.TransGen (EdgeRel g) a b) :
    b ∈ L := by
  induction hab with
  | single h1 => exact finOrd_closed g h a ha _ h1
  | tail hab h1 ih => exact finOrd_closed g h _ ih _ h1

lemma finOrd_no_cycle (g : Graph) {L : List String} (h : FinOrd g L) :
    ∀ x ∈ L, ¬ Relation.TransGen (EdgeRel g) x x := by
  induction h with
  | nil => intro x hx; cases hx
  | cons hx hsucc hL ih =>
    rename_i x₀ L'
    intro x hxmem hcyc
    rcases List.mem_cons.mp hxmem with rfl | hxL
    · obtain ⟨y, hxy, hyx⟩ := Relation.TransGen.head'_iff.mp hcyc
      have hyL : y ∈ L' := hsucc y hxy
      rcases Relation.reflTransGen_iff_eq_or_transGen.mp hyx with heq | htg
      · exact hx (heq ▸ hyL)
      · exact hx (finOrd_reach_mem g hL hyL htg)
    · exact ih x hxL hcyc

end WorkflowGraph

namespace WorkflowGraph

lemma foldl_dfsStep_true (next : String → Finset String → Finset String →
    Bool × Finset String) (stack : Finset String) :
    ∀ (ts : List String) (vis : Finset String),
      ts.foldl (dfsStep next stack) (true, vis) = (true, vis) := by
  intro ts
  induction ts with
  | nil => intro vis; rfl
  | cons t ts ih =>
    intro vis
    rw [List.foldl_cons, show dfsStep next stack (true, vis) t = (true, vis) from rfl,
      ih vis]

lemma toFinset_sdiff_insert (node : String) (vis stack : Finset String)
    (hnv : node ∉ vis) :
    vis \ stack = (insert node vis) \ (insert node stack) := by
  ext x
  simp only [Finset.mem_sdiff, Finset.mem_insert]
  constructor
  · rintro ⟨hx, hxs⟩
    refine ⟨Or.inr hx, ?_⟩
    rintro (rfl | h)
    · exact hnv hx
    · exact hxs h
  · rintro ⟨hx | hx, hxs⟩
    · exact absurd (Or.inl hx) hxs
    · exact ⟨hx, fun h => hxs (Or.inr h)⟩

lemma sdiff_stack_pop (node : String) (visE stack : Finset String)
    (hmem : node ∈ visE) (hns : node ∉ stack) :
    visE \ stack = insert node (visE \ insert node stack) := by
  ext x
  simp only [Finset.mem_sdiff, Finset.mem_insert]
  constructor
  · rintro ⟨hx, hxs⟩
    by_cases hxn : x = node
    · exact Or.inl hxn
    · exact Or.inr ⟨hx, fun h => h.elim hxn hxs⟩
  · rintro (rfl | ⟨hx, hxs⟩)
    · exact ⟨hmem, hns⟩
    · exact ⟨hx, fun h => hxs (Or.inr h)⟩

lemma foldl_spec (g : Graph) (fuel : Nat) (stack : Finset String)
    (hdfs : dfsSpec g fuel) :
    ∀ (ts : List String) (vis visE : Finset String) (L : List String),
      stack ⊆ vis → L.toFinset = vis \ stack → FinOrd g L →
      ts.foldl (dfsStep (dfs g fuel) stack) (false, vis) = (false, visE) →
      ∃ L', FinOrd g L' ∧ L'.toFinset = visE \ stack ∧ vis ⊆ visE ∧
        ∀ t ∈ ts, t ∈ visE ∧ t ∉ stack := by
  intro ts
  induction ts with
  | nil =>
    intro vis visE L hsv hLf hLo hrun
    rw [List.foldl_nil] at hrun
    injection hrun with h1 h2
    subst h2
    exact ⟨L, hLo, hLf, Finset.Subset.refl vis, fun t ht => absurd ht (by simp)⟩
  | cons t ts ih =>
    intro vis visE L hsv hLf hLo hrun
    rw [List.foldl_cons] at hrun
    by_cases ht : t ∈ vis
    · by_cases hts : t ∈ stack
      · rw [show dfsStep (dfs g fuel) stack (false, vis) t = (true, vis) by
          simp [dfsStep, ht, hts]] at hrun
        rw [foldl_dfsStep_true] at hrun
        exact absurd hrun (by simp)
      · rw [show dfsStep (dfs g fuel) stack (false, vis) t = (false, vis) by
          simp [dfsStep, ht, hts]] at hrun
        obtain ⟨L', hL'o, hL'f, hmono, hrest⟩ := ih vis visE L hsv hLf hLo hrun
        refine ⟨L', hL'o, hL'f, hmono, ?_⟩
        intro t' ht'
        rcases List.mem_cons.mp ht' with rfl | h
        · exact ⟨hmono ht, hts⟩
        · exact hrest t' h
    · rw [show dfsStep (dfs g fuel) stack (false, vis) t = dfs g fuel t vis stack by
        simp [dfsStep, ht]] at hrun
      rcases hdfsres : dfs g fuel t vis stack with ⟨b, vis₂⟩
      rw [hdfsres] at hrun
      cases b with
      | true =>
        rw [foldl_dfsStep_true] at hrun
        exact absurd hrun (by simp)
      | false =>
        obtain ⟨L₂, hL₂o, hL₂f, hmono₂, htin⟩ :=
          hdfs t vis stack vis₂ L hsv ht hLf hLo hdfsres
        obtain ⟨L₃, hL₃o, hL₃f, hmono₃, hrest⟩ :=
          ih vis₂ visE L₂ (hsv.trans hmono₂) hL₂f hL₂o hrun
        refine ⟨L₃, hL₃o, hL₃f, hmono₂.trans hmono₃, ?_⟩
        intro t' ht'
        rcases List.mem_cons.mp ht' with rfl | h
        · exact ⟨hmono₃ htin, fun hc => ht (hsv hc)⟩
        · exact hrest t' h

lemma dfs_spec_all (g : Graph) : ∀ fuel, dfsSpec g fuel := by
  intro fuel
  induction fuel with
  | zero =>
    intro node vis stack visE L _ _ _ _ hrun
    exact absurd hrun (by simp [dfs])
  | succ fuel ih =>
    intro node vis stack visE L hsv hnv hLf hLo hrun
    have hrun' : (dfsTargets g node).foldl
        (dfsStep (dfs g fuel) (insert node stack)) (false, insert node vis) =
          (false, visE) := hrun
    have hsv' : insert node stack ⊆ insert node vis :=
      Finset.insert_subset_insert node hsv
    have hLf' : L.toFinset = (insert node vis) \ (insert node stack) := by
      rw [hLf]
      exact toFinset_sdiff_insert node vis stack hnv
    obtain ⟨L₂, hL₂o, hL₂f, hmono₂, htin⟩ :=
      foldl_spec g fuel (insert node stack) ih (dfsTargets g node)
        (insert node vis) visE L hsv' hLf' hLo hrun'
    have hnodevis' : node ∈ visE := hmono₂ (Finset.mem_insert_self node vis)
    have hnstack : node ∉ stack := fun h => hnv (hsv h)
    have hnodeL₂ : node ∉ L₂ := by
      intro h
      have : node ∈ visE \ insert node stack := by
        rw [← hL₂f]
        exact List.mem_toFinset.mpr h
      rw [Finset.mem_sdiff] at this
      exact this.2 (Finset.mem_insert_self node stack)
    have hsucc : ∀ y, EdgeRel g node y → y ∈ L₂ := by
      intro y hy
      have hyt : y ∈ dfsTargets g node := (mem_dfsTargets g node y).mpr hy
      obtain ⟨hyv, hys⟩ := htin y hyt
      have : y ∈ visE \ insert node stack := Finset.mem_sdiff.mpr ⟨hyv, hys⟩
      rw [← hL₂f] at this
      exact List.mem_toFinset.mp this
    refine ⟨node :: L₂, FinOrd.cons hnodeL₂ hsucc hL₂o, ?_, ?_, hnodevis'⟩
    · rw [List.toFinset_cons, hL₂f]
      exact (sdiff_stack_pop node visE stack hnodevis' hnstack).symm
    · exact (Finset.subset_insert node vis).trans hmono₂

end WorkflowGraph

namespace WorkflowGraph

lemma foldl_hasCycleStep_true (g : Graph) (F : Nat) :
    ∀ (ns : List String) (vis : Finset String),
      ns.foldl (hasCycleStep g F) (true, vis) = (true, vis) := by
  intro ns
  induction ns with
  | nil => intro vis; rfl
  | cons n ns ih =>
    intro vis
    rw [List.foldl_cons, show hasCycleStep g F (true, vis) n = (true, vis) from rfl,
      ih vis]

lemma has_cycle_fold_spec (g : Graph) (F : Nat) :
    ∀ (ns : List String) (vis visE : Finset String) (L : List String),
      L.toFinset = vis → FinOrd g L →
      ns.foldl (hasCycleStep g F) (false, vis) = (false, visE) →
      ∃ L', FinOrd g L' ∧ L'.toFinset = visE ∧ vis ⊆ visE ∧
        ∀ n ∈ ns, n ∈ visE := by
  intro ns
  induction ns with
  | nil =>
    intro vis visE L hLf hLo hrun
    rw [List.foldl_nil] at hrun
    injection hrun with h1 h2
    subst h2
    exact ⟨L, hLo, hLf, Finset.Subset.refl vis, fun n hn => absurd hn (by simp)⟩
  | cons n ns ih =>
    intro vis visE L hLf hLo hrun
    rw [List.foldl_cons] at hrun
    by_cases hn : n ∈ vis
    · rw [show hasCycleStep g F (false, vis) n = (false, vis) by
        simp [hasCycleStep, hn]] at hrun
      obtain ⟨L', hL'o, hL'f, hmono, hall⟩ := ih vis visE L hLf hLo hrun
      exact ⟨L', hL'o, hL'f, hmono, fun m hm => by
        rcases List.mem_cons.mp hm with rfl | h
        · exact hmono hn
        · exact hall m h⟩
    · rw [show hasCycleStep g F (false, vis) n = dfs g F n vis ∅ by
        simp [hasCycleStep, hn]] at hrun
      rcases hdfsres : dfs g F n vis ∅ with ⟨b, vis₂⟩
      rw [hdfsres] at hrun
      cases b with
      | true =>
        rw [foldl_hasCycleStep_true] at hrun
        exact absurd hrun (by simp)
      | false =>
        have hLf' : L.toFinset = vis \ ∅ := by rw [Finset.sdiff_empty]; exact hLf
        obtain ⟨L₂, hL₂o, hL₂f, hmono₂, hnin⟩ :=
          dfs_spec_all g F n vis ∅ vis₂ L (Finset.empty_subset vis) hn hLf' hLo
            hdfsres
        rw [Finset.sdiff_empty] at hL₂f
        obtain ⟨L₃, hL₃o, hL₃f, hmono₃, hall⟩ := ih vis₂ visE L₂ hL₂f hL₂o hrun
        refine ⟨L₃, hL₃o, hL₃f, hmono₂.trans hmono₃, ?_⟩
        intro m hm
        rcases List.mem_cons.mp hm with rfl | h
        · exact hmono₃ hnin
        · exact hall m h

lemma has_cycle_false (g : Graph) (h : _has_cycle g = false) :
    ∃ L, FinOrd g L ∧ ∀ n ∈ g.nodes, n ∈ L := by
  rw [_has_cycle] at h
  rcases hres : g.nodes.foldl
      (hasCycleStep g (g.nodes.length + g.edges.length + 1)) (false, ∅) with
    ⟨b, visE⟩
  rw [hres] at h
  cases b with
  | true => cases h
  | false =>
    obtain ⟨L', hL'o, hL'f, _, hall⟩ :=
      has_cycle_fold_spec g (g.nodes.length + g.edges.length + 1) g.nodes ∅
        visE [] (by simp) (FinOrd.nil) hres
    refine ⟨L', hL'o, ?_⟩
    intro n hn
    have : n ∈ visE := hall n hn
    rw [← hL'f] at this
    exact List.mem_toFinset.mp this

lemma no_cycle_of_has_cycle_false (g : Graph) (h : _has_cycle g = false)
    (hsrc : ∀ e ∈ g.edges, e.source ∈ g.nodes) : ¬ HasCycleProp g := by
  rintro ⟨u, hu⟩
  obtain ⟨L, hL, hmem⟩ := has_cycle_false g h
  obtain ⟨y, huy, -⟩ := Relation.TransGen.head'_iff.mp hu
  obtain ⟨e, he, hes, -⟩ := huy
  have huN : u ∈ g.nodes := hes ▸ hsrc e he
  exact finOrd_no_cycle g hL u (hmem u huN) hu

end WorkflowGraph

namespace WorkflowGraph

lemma edge_errors_nil (g : Graph) : ∀ (es : List Edge),
    es.foldr (fun e acc =>
      (if !(g.nodes.contains e.target) then
        ["Edge " ++ e.source ++ "_to_" ++ e.target ++ " targets non-existent node"]
      else [])
      ++ (if !(g.nodes.contains e.source) then
        ["Edge " ++ e.source ++ "_to_" ++ e.target ++ " originates from non-existent node"]
      else [])
      ++ acc) [] = [] →
    ∀ e ∈ es, e.target ∈ g.nodes ∧ e.source ∈ g.nodes := by
  intro es
  induction es with
  | nil => intro _ e he; cases he
  | cons e es ih =>
    intro h e' he'
    rw [List.foldr_cons] at h
    obtain ⟨hAB, hrest⟩ := List.append_eq_nil.mp h
    obtain ⟨hA, hB⟩ := List.append_eq_nil.mp hAB
    rcases List.mem_cons.mp he' with rfl | hmem
    · constructor
      · by_cases hc : g.nodes.contains e'.target
        · simpa using hc
        · rw [if_pos (by simpa using hc)] at hA
          cases hA
      · by_cases hc : g.nodes.contains e'.source
        · simpa using hc
        · rw [if_pos (by simpa using hc)] at hB
          cases hB
    · exact ih hrest e' hmem

lemma validate_empty (g : Graph) (h : validate g = []) :
    adjacency g "__start__" ≠ [] ∧
    (∀ n ∈ g.nodes, n ≠ "__end__" → adjacency g n ≠ []) ∧
    _has_cycle g = false ∧
    (∀ e ∈ g.edges, e.target ∈ g.nodes ∧ e.source ∈ g.nodes) := by
  rw [validate] at h
  obtain ⟨h123, h4⟩ := List.append_eq_nil.mp h
  obtain ⟨h12, h3⟩ := List.append_eq_nil.mp h123
  obtain ⟨h1, h2⟩ := List.append_eq_nil.mp h12
  refine ⟨?_, ?_, ?_, edge_errors_nil g g.edges h4⟩
  · intro hadj
    rw [hadj] at h1
    simp at h1
  · intro n hn hne hadj
    have hfil : g.nodes.filter
        (fun n => !(n == "__end__") && (adjacency g n).isEmpty) = [] := by
      simpa using h2
    have hnot := List.filter_eq_nil_iff.mp hfil n hn
    apply hnot
    rw [hadj]
    simp [hne]
  · by_cases hc : _has_cycle g
    · rw [if_pos hc] at h3
      cases h3
    · simpa using hc

lemma walk_to_end (g : Graph)
    (hout : ∀ n ∈ g.nodes, n ≠ "__end__" → adjacency g n ≠ [])
    (hclosed : ∀ e ∈ g.edges, e.target ∈ g.nodes ∧ e.source ∈ g.nodes) :
    ∀ (fuel : Nat) (seen : Finset String) (u : String), u ∈ g.nodes →
      u ∉ seen → (∀ x ∈ seen, x ∈ g.nodes) →
      (∀ x ∈ seen, Relation.TransGen (EdgeRel g) x u) →
      g.nodes.toFinset.card - seen.card ≤ fuel →
      PathRel g u "__end__" ∨ HasCycleProp g := by
  intro fuel
  induction fuel with
  | zero =>
    intro seen u hu hus hseenN _ hcard
    exfalso
    have hsub : seen ⊆ g.nodes.toFinset := fun x hx =>
      List.mem_toFinset.mpr (hseenN x hx)
    have hlt : seen.card < g.nodes.toFinset.card :=
      Finset.card_lt_card ⟨hsub, fun hall =>
        hus (hall (List.mem_toFinset.mpr hu))⟩
    omega
  | succ fuel ih =>
    intro seen u hu hus hseenN hanc hcard
    by_cases hend : u = "__end__"
    · left
      rw [hend]
      exact Relation.ReflTransGen.refl
    · obtain ⟨e, he⟩ : ∃ e, e ∈ adjacency g u := by
        cases hadjl : adjacency g u with
        | nil => exact absurd hadjl (hout u hu hend)
        | cons e es => exact ⟨e, hadjl ▸ List.mem_cons_self e es⟩
      have heg : e ∈ g.edges := (List.mem_filter.mp he).1
      have hes : e.source = u := by
        have := (List.mem_filter.mp he).2
        simpa using this
      have hEdge : EdgeRel g u e.target := ⟨e, heg, hes, rfl⟩
      have hvN : e.target ∈ g.nodes := (hclosed e heg).1
      by_cases hv : e.target ∈ insert u seen
      · right
        rcases Finset.mem_insert.mp hv with heq | hvs
        · exact ⟨u, Relation.TransGen.single (heq ▸ hEdge)⟩
        · exact ⟨e.target,
            (hanc e.target hvs).trans (Relation.TransGen.single hEdge)⟩
      · have hrec := ih (insert u seen) e.target hvN hv
          (fun x hx => by
            rcases Finset.mem_insert.mp hx with rfl | hxs
            · exact hu
            · exact hseenN x hxs)
          (fun x hx => by
            rcases Finset.mem_insert.mp hx with rfl | hxs
            · exact Relation.TransGen.single hEdge
            · exact (hanc x hxs).trans (Relation.TransGen.single hEdge))
          (by
            rw [Finset.card_insert_of_not_mem hus]
            omega)
        rcases hrec with hpath | hcyc
        · left
          exact Relation.ReflTransGen.head hEdge hpath
        · right
          exact hcyc

/-- C6: whenever `validate` reports no errors, the workflow graph contains a
directed path from `__start__` to `__end__`.  The source never checks
reachability directly, but the checks it does perform (start has an outgoing
edge, every non-end node has an outgoing edge, edges connect existing nodes,
and the DFS finds no cycle) together imply it: following edges from
`__start__` can neither stop (each non-end node has a successor inside the
graph) nor repeat a node (that would be a cycle), so it must reach
`__end__`. -/
theorem c6_validate_implies_path (g : Graph) (h : validate g = []) :
    PathRel g "__start__" "__end__" := by
  obtain ⟨hstart, hout, hnocycle, hclosed⟩ := validate_empty g h
  have hsrc : ∀ e ∈ g.edges, e.source ∈ g.nodes := fun e he => (hclosed e he).2
  have hstartN : "__start__" ∈ g.nodes := by
    obtain ⟨e, he⟩ : ∃ e, e ∈ adjacency g "__start__" := by
      cases hadjl : adjacency g "__start__" with
      | nil => exact absurd hadjl hstart
      | cons e es => exact ⟨e, hadjl ▸ List.mem_cons_self e es⟩
    have heg : e ∈ g.edges := (List.mem_filter.mp he).1
    have hes : e.source = "__start__" := by
      have := (List.mem_filter.mp he).2
      simpa using this
    exact hes ▸ hsrc e heg
  have hnc : ¬ HasCycleProp g := no_cycle_of_has_cycle_false g hnocycle hsrc
  rcases walk_to_end g hout hclosed g.nodes.toFinset.card ∅ "__start__" hstartN
      (by simp) (by simp) (by simp) (by simp) with hpath | hcyc
  · exact hpath
  · exact absurd hcyc hnc

/-- C6 witness: the claim applied to the concrete valid workflow
`__start__ → a → __end__`. -/
theorem c6_witness : PathRel demoGraph "__start__" "__end__" :=
  c6_validate_implies_path demoGraph (by decide)

end WorkflowGraph
